import Mathlib

/-!
Verification of the TSpectrum one-dimensional spectral-analysis core
(ROOT, `hist` module).  The source tree contains the class header
`src/hist/inc/TSpectrum.h` (fields, enums, signatures and default
arguments); the kernel bodies live in `TSpectrum.cxx`, which is not part
of the excerpt, so every kernel below is modelled from the
specification's algorithm descriptions (spec.md §4), with real-valued
channels embedded as exact rationals `ℚ` and arrays as `List ℚ`.
Pieces the specification leaves numeric-only (square-root transition
weights, the Gaussian response builder, the boosting power law, the
Compton-edge repair) are taken as explicit function parameters, so every
theorem quantifies over all of their realisations.
-/

namespace TSpectrum

/-- Error taxonomy of spec §7: configuration errors are reported immediately
with no partial computation. -/
inductive SpecError where
  | configurationError
  deriving DecidableEq, Repr

/-! ## BackgroundEstimator (spec §4.1, header `TSpectrum::Background`) -/

/-- Channel read with the index clamped into `[0, n-1]` (spec §4.1: the
window is clamped at array boundaries so it never reads outside the array). -/
def getClamped (xs : List ℚ) (i : Int) : ℚ :=
  xs.getD (min (max i 0) ((xs.length : Int) - 1)).toNat 0

/-- Window-growth direction, header enum `kBackIncreasingWindow` /
`kBackDecreasingWindow`. -/
inductive BackDirection where
  | increasing
  | decreasing
  deriving DecidableEq, Repr

/-- Modelled from the spec: `TSpectrum.cxx` is absent from src/; spec §4.1
takes the local reference value as "the order-point symmetric average of
samples at offsets determined by `w`".  For the 2k-point filter order the
reference averages the 2k samples at offsets ±w, ±2w, …, ±kw, clamped at
the boundaries. -/
def backRef (order : Nat) (xs : List ℚ) (i : Nat) (w : Nat) : ℚ :=
  (((List.range (order / 2)).map (fun t =>
      getClamped xs ((i : Int) - ((t + 1) * w : Nat)) +
      getClamped xs ((i : Int) + ((t + 1) * w : Nat)))).sum) / (order : ℚ)

/-- One clipping pass at half-width `w`: each channel becomes the minimum of
its current value and the local reference value (spec §4.1). -/
def clipPass (order w : Nat) (xs : List ℚ) : List ℚ :=
  (List.range xs.length).map (fun i => min (xs.getD i 0) (backRef order xs i w))

/-- Sequence of window half-widths 1..W in the configured direction. -/
def windowSeq (w : Nat) : BackDirection → List Nat
  | .increasing => (List.range w).map (· + 1)
  | .decreasing => ((List.range w).map (· + 1)).reverse

/-- Iterated clipping across the window sequence (spec §4.1). -/
def clipLoop (order : Nat) (ws : List Nat) (xs : List ℚ) : List ℚ :=
  ws.foldl (fun a w => clipPass order w a) xs

/-- One moving-average pass of odd width `sw` (spec §4.1 post-smoothing);
each channel is averaged with its in-range neighbours at distance ≤ sw/2. -/
def movAvg (sw : Nat) (xs : List ℚ) : List ℚ :=
  (List.range xs.length).map (fun i =>
    let lo := i - sw / 2
    let hi := min (i + sw / 2) (xs.length - 1)
    (((List.range (hi + 1 - lo)).map (fun t => xs.getD (lo + t) 0)).sum)
      / ((hi + 1 - lo : Nat) : ℚ))

/-- Configuration of one `Background` call (header line 62). -/
structure BackParams where
  numberIterations : Int
  direction : BackDirection
  filterOrder : Nat
  smoothing : Bool
  smoothWindow : Nat
  compton : Bool

/-- Validity of a `Background` configuration (spec §4.1 failure cases):
`W ≥ 1`, a 2/4/6/8-point filter order, and an odd smoothing window. -/
def backValid (p : BackParams) : Bool :=
  (1 ≤ p.numberIterations) &&
  (p.filterOrder == 2 || p.filterOrder == 4 || p.filterOrder == 6 || p.filterOrder == 8) &&
  (p.smoothWindow % 2 == 1)

/-- Modelled from the spec: `TSpectrum.cxx` is absent from src/; spec §4.1:
validate the configuration (on failure report a configuration error and
leave the caller's array unchanged), run the clipping loop across the
window sequence, then optionally one moving-average pass, then optionally
the Compton-edge repair.  The spec gives no algorithm for the Compton
repair ("detect step-like discontinuities and flatten the estimate across
them"), so it is a function parameter `comptonFix`. -/
def Background (comptonFix : List ℚ → List ℚ) (p : BackParams)
    (spectrum : List ℚ) : List ℚ × Option SpecError :=
  if backValid p then
    let clipped := clipLoop p.filterOrder (windowSeq p.numberIterations.toNat p.direction) spectrum
    let sm := if p.smoothing then movAvg p.smoothWindow clipped else clipped
    ((if p.compton then comptonFix sm else sm), none)
  else
    (spectrum, some SpecError.configurationError)

/-! ## MarkovSmoother (spec §4.2, header `TSpectrum::SmoothMarkov`) -/

/-- Modelled from the spec: the normalized forward/backward chain of spec
§4.2, `p 0 = 1` and `p (i+1) = p i * f i` where `f i` is the ratio of the
accumulated forward to backward transition weights at channel `i`. -/
def markovChain (f : Nat → ℚ) : Nat → ℚ
  | 0 => 1
  | i + 1 => markovChain f i * f i

/-- Modelled from the spec: `TSpectrum.cxx` is absent from src/; spec §4.2:
propagate the smoothed estimate across the full chain length and normalize
the final result so its total matches the source total exactly.  The
transition-weight ratio — derived from square roots of the neighbouring
values within ±averWindow, a numeric recipe the spec does not pin down —
is the function parameter `ratioFn` (applied to the source and the
averaging window). -/
def SmoothMarkov (ratioFn : List ℚ → Nat → Nat → ℚ) (source : List ℚ)
    (averWindow : Nat) : List ℚ :=
  let raw := (List.range source.length).map (markovChain (ratioFn source averWindow))
  if raw.sum = 0 then raw else raw.map (fun x => x * (source.sum / raw.sum))

/-! ## Deconvolver, Gold ratio method (spec §4.3, header `TSpectrum::Deconvolution`) -/

/-- Convolution of the current estimate with the response kernel at channel
`i`, zero-padded outside the array. -/
def convAt (est ker : List ℚ) (i : Nat) : ℚ :=
  ((List.range ker.length).map (fun j => ker.getD j 0 * est.getD (i + j) 0)).sum

/-- Modelled from the spec: one Gold-ratio update pass (spec §4.3):
`estimate[i] *= source[i] / convolution(estimate, kernel)[i]`, leaving any
channel whose denominator is zero unchanged.  In this exact-rational model a
denominator can never be NaN or Inf; the zero test is the spec's degeneracy
guard. -/
def goldStep (src ker est : List ℚ) : List ℚ :=
  (List.range est.length).map (fun i =>
    let d := convAt est ker i
    if d = 0 then est.getD i 0 else est.getD i 0 * (src.getD i 0 / d))

/-- Inner loop: `numberIterations` Gold update passes (spec §4.3). -/
def goldIter (src ker : List ℚ) : Nat → List ℚ → List ℚ
  | 0, est => est
  | n + 1, est => goldIter src ker n (goldStep src ker est)

/-- Modelled from the spec: repetition blocks of spec §4.3; the boosting
transform — a power law the spec leaves as a tunable exponent (spec §9) — is
the function parameter `boostFn`, applied between blocks. -/
def goldRep (boostFn : ℚ → ℚ) (src ker : List ℚ) (iters : Nat) :
    Nat → List ℚ → List ℚ
  | 0, est => est
  | n + 1, est =>
      let e := goldIter src ker iters est
      if n = 0 then e else goldRep boostFn src ker iters n (e.map boostFn)

/-- Modelled from the spec: `TSpectrum.cxx` is absent from src/; Gold
deconvolution (spec §4.3), with the working estimate initialized to the
source. -/
def Deconvolution (boostFn : ℚ → ℚ) (source response : List ℚ)
    (numberIterations numberRepetitions : Nat) : List ℚ :=
  goldRep boostFn source response numberIterations numberRepetitions source

/-! ## PeakSearcher (spec §4.6, header `TSpectrum::SearchHighRes`) -/

/-- Per-call configuration of `SearchHighRes` (header line 67). -/
structure SearchParams where
  sigma : ℚ
  threshold : ℚ
  backgroundRemove : Bool
  deconIterations : Nat
  markov : Bool
  averWindow : Nat

/-- Validity of a search call (spec §4.6 failure cases): `sigma > 0`,
`threshold` in `[0,100]`, `ssize ≥ 1` (the source length plays the role of
the `ssize` argument). -/
def searchValid (source : List ℚ) (p : SearchParams) : Bool :=
  decide (0 < p.sigma) && decide (0 ≤ p.threshold) &&
  decide (p.threshold ≤ 100) && decide (1 ≤ source.length)

/-- Modelled from the spec: background removal inside the search pipeline
(spec §4.6 step 1): run the clipping estimator and subtract its output from
the source.  The spec does not fix the clipping parameters used here; the
model uses the 2-point order with a decreasing window of half-width
`⌈sigma⌉`. -/
def removeBackground (source : List ℚ) (sigma : ℚ) : List ℚ :=
  let bg := clipLoop 2 (windowSeq ⌈sigma⌉.toNat .decreasing) source
  (List.range source.length).map (fun i => source.getD i 0 - bg.getD i 0)

/-- Steps 1–2 of the spec §4.6 pipeline: optional background removal, then
optional Markov smoothing. -/
def preprocessed (ratioFn : List ℚ → Nat → Nat → ℚ) (source : List ℚ)
    (p : SearchParams) : List ℚ :=
  let s1 := if p.backgroundRemove then removeBackground source p.sigma else source
  if p.markov then SmoothMarkov ratioFn s1 p.averWindow else s1

/-- Steps 3–4 of the spec §4.6 pipeline: sharpen by Gold deconvolution for
`deconIterations` passes against the response kernel built from `sigma` (the
Gaussian-shaped builder, numeric-only in the spec, is the parameter
`kernelOf`). -/
def sharpened (kernelOf : ℚ → List ℚ) (ratioFn : List ℚ → Nat → Nat → ℚ)
    (source : List ℚ) (p : SearchParams) : List ℚ :=
  let s2 := preprocessed ratioFn source p
  goldIter s2 (kernelOf p.sigma) p.deconIterations s2

/-- Tallest amplitude of the sharpened array (non-negative floor 0). -/
def maxAmp (arr : List ℚ) : ℚ := arr.foldr max 0

/-- Candidate peaks (spec §4.6 step 5): strict local maxima whose height
exceeds `threshold/100` of the tallest amplitude, scanned in channel order. -/
def candidates (arr : List ℚ) (threshold : ℚ) : List Nat :=
  (List.range arr.length).filter (fun i =>
    decide (1 ≤ i) && decide (i + 1 < arr.length) &&
    decide (arr.getD (i - 1) 0 < arr.getD i 0) &&
    decide (arr.getD (i + 1) 0 < arr.getD i 0) &&
    decide (threshold / 100 * maxAmp arr < arr.getD i 0))

/-- Rank order on candidate channels: taller first, exact height ties broken
toward the lower channel index (spec §4.6's deterministic tie-break). -/
def rankLE (arr : List ℚ) (a b : Nat) : Bool :=
  decide (arr.getD b 0 < arr.getD a 0 ∨ (arr.getD a 0 = arr.getD b 0 ∧ a ≤ b))

/-- Insertion into a rank-sorted candidate list. -/
def insertRanked (arr : List ℚ) (i : Nat) : List Nat → List Nat
  | [] => [i]
  | j :: rest => if rankLE arr i j then i :: j :: rest else j :: insertRanked arr i rest

/-- Rank-sort of the candidate list (tallest first, ties by lower index). -/
def sortRanked (arr : List ℚ) : List Nat → List Nat
  | [] => []
  | i :: rest => insertRanked arr i (sortRanked arr rest)

/-- `i` is at least `sigma` channels away from every already retained peak. -/
def farFrom (sigma : ℚ) (i : Nat) (acc : List Nat) : Bool :=
  acc.all (fun a => decide (sigma ≤ |(i : ℚ) - (a : ℚ)|))

/-- Greedy minimum-separation filter over rank-ordered candidates: a candidate
is retained iff it lies at least `sigma` channels from every peak already
retained, so of two conflicting candidates the better ranked wins
(spec §4.6 step 5). -/
def greedyGo (sigma : ℚ) (acc : List Nat) : List Nat → List Nat
  | [] => acc
  | i :: rest =>
      if farFrom sigma i acc then greedyGo sigma (acc ++ [i]) rest
      else greedyGo sigma acc rest

/-- Peak extraction from the sharpened array (spec §4.6 step 5): threshold-
qualified local maxima, rank-ordered, then the greedy minimum-separation
filter. -/
def selectPeaks (sigma threshold : ℚ) (arr : List ℚ) : List Nat :=
  greedyGo sigma [] (sortRanked arr (candidates arr threshold))

/-- Result of one `SearchHighRes` call: the peak count returned, the peak
list, the written destination array, the capacity warning, and the error. -/
structure SearchResult where
  npeaks : Nat
  positions : List Nat
  dest : List ℚ
  warning : Bool
  err : Option SpecError

/-- Modelled from the spec: `TSpectrum.cxx` is absent from src/; the full
spec §4.6 pipeline: validate, preprocess, sharpen, extract peaks, truncate
the result to the configured maximum (retaining the best ranked, i.e.
tallest, candidates) and flag the overflow as a non-fatal warning. -/
def SearchHighRes (kernelOf : ℚ → List ℚ) (ratioFn : List ℚ → Nat → Nat → ℚ)
    (fMaxPeaks : Nat) (source : List ℚ) (p : SearchParams) : SearchResult :=
  if searchValid source p then
    let sharp := sharpened kernelOf ratioFn source p
    let acc := selectPeaks p.sigma p.threshold sharp
    { npeaks := (acc.take fMaxPeaks).length
      positions := acc.take fMaxPeaks
      dest := sharp
      warning := decide (fMaxPeaks < acc.length)
      err := none }
  else
    { npeaks := 0, positions := [], dest := [], warning := false,
      err := some SpecError.configurationError }

/-- Per-instance state of the header (lines 20–25): the configured maximum
peak count and resolution, and the result buffers overwritten by each
successful search. -/
structure InstState where
  fMaxPeaks : Nat
  fResolution : ℚ
  fNPeaks : Nat
  fPositionX : List Nat

/-- One search call against an instance: on success the result buffers are
overwritten and the peak count returned; a configuration error leaves the
instance state unchanged and returns zero peaks (spec §4.6, §7). -/
def searchHighResRun (kernelOf : ℚ → List ℚ) (ratioFn : List ℚ → Nat → Nat → ℚ)
    (st : InstState) (source : List ℚ) (p : SearchParams) : InstState × Nat :=
  let r := SearchHighRes kernelOf ratioFn st.fMaxPeaks source p
  if r.err = none then
    ({ st with fNPeaks := r.npeaks, fPositionX := r.positions }, r.npeaks)
  else (st, 0)

/-- Two channels at least `sigma` apart. -/
def sepBy (sigma : ℚ) (a b : Nat) : Prop := sigma ≤ |(a : ℚ) - (b : ℚ)|

/-- Source of spec §8 Scenario C: two equal-height peaks at channels 30 and
33, closer than `sigma = 5`. -/
def scenarioC : List ℚ :=
  [0, 0, 0, 0, 0, 0, 0, 0, 0, 0, 0, 0, 0, 0, 0, 0, 0, 0, 0, 0,
   0, 0, 0, 0, 0, 0, 0, 0, 0, 0, 10, 0, 0, 10, 0]

/-! ## Static configuration fields (header lines 27–28) -/

/-- The class-wide static configuration of the header (lines 27–28):
`fgAverageWindow` and `fgIterations` are `static Int_t` fields, one storage
location shared by every `TSpectrum` instance. -/
structure GlobalConfig where
  fgAverageWindow : Int
  fgIterations : Int

/-- A world holding two distinct `TSpectrum` instances together with the
single shared static configuration. -/
structure SpectrumWorld where
  globals : GlobalConfig
  instA : InstState
  instB : InstState

/-- Modelled from the spec: `TSpectrum.cxx` is absent from src/;
`TSpectrum::SetAverageWindow` (header line 57, "set average window") is a
`static` member writing the class-wide field `fgAverageWindow` (header line
27).  The `callerIsA` argument records which instance the call was made
through; being static, the member cannot depend on it. -/
def SetAverageWindow (_callerIsA : Bool) (w : SpectrumWorld) (v : Int) : SpectrumWorld :=
  { w with globals := { w.globals with fgAverageWindow := v } }

/-- Modelled from the spec: `TSpectrum::SetDeconIterations` (header line 58)
writes the class-wide static field `fgIterations` (header line 28). -/
def SetDeconIterations (_callerIsA : Bool) (w : SpectrumWorld) (n : Int) : SpectrumWorld :=
  { w with globals := { w.globals with fgIterations := n } }

/-- Per-instance setter `TSpectrum::SetResolution` (header line 59) applied
to instance A; `fResolution` is an ordinary instance field (header line 25). -/
def SetResolutionA (w : SpectrumWorld) (r : ℚ) : SpectrumWorld :=
  { w with instA := { w.instA with fResolution := r } }

/-- The averaging window and deconvolution iteration count instance B's next
histogram-level `Search` call will use: the class statics (header comments,
lines 27–28). -/
def effectiveSearchConfigB (w : SpectrumWorld) : Int × Int :=
  (w.globals.fgAverageWindow, w.globals.fgIterations)

/-! ## Defaults of the histogram-level Search (header line 56) -/

/-- Default `sigma` argument of `TSpectrum::Search` (header line 56). -/
def searchDefaultSigma : ℚ := 2

/-- Default `option` argument of `TSpectrum::Search` (header line 56). -/
def searchDefaultOption : String := "goff"

/-- Default `threshold` argument of `TSpectrum::Search` (header line 56). -/
def searchDefaultThreshold : ℚ := 0.05

/-- Modelled from the spec: `TSpectrum.cxx` is absent from src/; the
histogram-level `Search` takes its threshold as a fraction of the tallest
peak, while `SearchHighRes` takes a percentage in `[0,100]` (spec §4.6), so
the fraction is scaled by 100 on the way through. -/
def searchThresholdToPercent (t : ℚ) : ℚ := 100 * t

/-- Valid `SearchHighRes` threshold range (spec §4.6). -/
def searchHighResThresholdOK (t : ℚ) : Prop := 0 ≤ t ∧ t ≤ 100

/-! ## Verified properties -/

/-- Reading an index past the end of a channel array yields the default 0. -/
theorem getD_of_length_le {l : List ℚ} {i : Nat} (h : l.length ≤ i) :
    l.getD i 0 = 0 := by
  rw [List.getD_eq_getElem?_getD, List.getElem?_eq_none h]
  rfl

/-- Evaluating a table built over `List.range` at an in-range index. -/
theorem getD_range_map (f : Nat → ℚ) {n i : Nat} (h : i < n) :
    ((List.range n).map f).getD i 0 = f i := by
  rw [List.getD_eq_getElem?_getD, List.getElem?_map, List.getElem?_range h]
  rfl

theorem length_clipPass (order w : Nat) (xs : List ℚ) :
    (clipPass order w xs).length = xs.length := by
  simp [clipPass]

theorem clipPass_getD_le (order w : Nat) (xs : List ℚ) (i : Nat) :
    (clipPass order w xs).getD i 0 ≤ xs.getD i 0 := by
  by_cases h : i < xs.length
  · rw [clipPass, getD_range_map _ h]
    exact min_le_left _ _
  · rw [getD_of_length_le (by simpa [length_clipPass] using Nat.le_of_not_lt h),
        getD_of_length_le (Nat.le_of_not_lt h)]

theorem clipLoop_getD_le (order : Nat) (ws : List Nat) (xs : List ℚ) (i : Nat) :
    (clipLoop order ws xs).getD i 0 ≤ xs.getD i 0 := by
  induction ws generalizing xs with
  | nil => simp [clipLoop]
  | cons w ws ih =>
      calc (clipLoop order (w :: ws) xs).getD i 0
          = (clipLoop order ws (clipPass order w xs)).getD i 0 := rfl
        _ ≤ (clipPass order w xs).getD i 0 := ih _
        _ ≤ xs.getD i 0 := clipPass_getD_le order w xs i

theorem length_clipLoop (order : Nat) (ws : List Nat) (xs : List ℚ) :
    (clipLoop order ws xs).length = xs.length := by
  induction ws generalizing xs with
  | nil => rfl
  | cons w ws ih => rw [clipLoop, List.foldl_cons, ← clipLoop, ih, length_clipPass]

/-- Claim C1, amended: for every source array and every configuration with
post-smoothing and Compton compensation disabled, the background estimate
never exceeds the source at any channel (the clipping loop only lowers
values). -/
theorem C1_background_le_source (comptonFix : List ℚ → List ℚ) (p : BackParams)
    (spectrum : List ℚ) (i : Nat)
    (hs : p.smoothing = false) (hc : p.compton = false) :
    (Background comptonFix p spectrum).1.getD i 0 ≤ spectrum.getD i 0 := by
  rw [Background]
  by_cases hv : backValid p = true
  · simp only [hv, if_true, hs, hc, if_false]
    exact clipLoop_getD_le _ _ _ _
  · simp [hv]

theorem C1_background_le_source_witness :
    (Background id ⟨2, .increasing, 2, false, 3, false⟩ [5, 1, 4]).1.getD 1 0
      ≤ ([5, 1, 4] : List ℚ).getD 1 0 :=
  C1_background_le_source id ⟨2, .increasing, 2, false, 3, false⟩ [5, 1, 4] 1 rfl rfl

/-- Claim C1 counterexample: with post-smoothing enabled — a configuration the
claim explicitly includes and `backValid` accepts — the moving-average pass can
raise the estimate above the source.  With source `[100, 0, 100]`, window
`W = 1`, 2-point order, smoothing window 3, the clipping loop yields
`[50, 0, 50]` and the moving average then returns `100/3 > 0` at channel 1. -/
theorem C1_counterexample :
    backValid ⟨1, .increasing, 2, true, 3, false⟩ = true ∧
    ([100, 0, 100] : List ℚ).getD 1 0 <
      (Background id ⟨1, .increasing, 2, true, 3, false⟩ [100, 0, 100]).1.getD 1 0 := by
  have hclip : clipLoop 2 (windowSeq 1 .increasing) [100, 0, 100] =
      ([50, 0, 50] : List ℚ) := by
    norm_num [clipLoop, windowSeq, List.range_succ, clipPass, backRef, getClamped,
      min_def, max_def, show ((2 : Int).toNat = 2) from rfl, show ((1 : Int).toNat = 1) from rfl]
  have hv : backValid ⟨1, .increasing, 2, true, 3, false⟩ = true := rfl
  have hbg : Background id ⟨1, .increasing, 2, true, 3, false⟩ [100, 0, 100] =
      (movAvg 3 [50, 0, 50], none) := by
    rw [Background, if_pos hv]
    simp [hclip]
  constructor
  · rfl
  · rw [hbg]
    norm_num [movAvg, List.range_succ]

/-- Claim C9: a `Background` call with `W ≤ 0`, a filter order outside the
2/4/6/8-point set, or an even smoothing-window value reports a configuration
error and performs no computation, leaving the caller's array unchanged. -/
theorem C9_background_config_error (comptonFix : List ℚ → List ℚ)
    (p : BackParams) (spectrum : List ℚ)
    (h : p.numberIterations ≤ 0 ∨
         (p.filterOrder ≠ 2 ∧ p.filterOrder ≠ 4 ∧ p.filterOrder ≠ 6 ∧ p.filterOrder ≠ 8) ∨
         p.smoothWindow % 2 = 0) :
    Background comptonFix p spectrum = (spectrum, some SpecError.configurationError) := by
  have hv : ¬ backValid p = true := by
    simp only [backValid, Bool.and_eq_true, Bool.or_eq_true, decide_eq_true_eq, beq_iff_eq]
    rintro ⟨⟨h1, horder⟩, hodd⟩
    rcases h with h | ⟨h2, h4, h6, h8⟩ | h
    · omega
    · rcases horder with ((h' | h') | h') | h' <;> omega
    · omega
  rw [Background, if_neg hv]

theorem C9_background_config_error_witness :
    Background id ⟨0, .increasing, 2, false, 3, false⟩ [7, 8] =
      ([7, 8], some SpecError.configurationError) :=
  C9_background_config_error id ⟨0, .increasing, 2, false, 3, false⟩ [7, 8]
    (Or.inl (by norm_num))

theorem markovChain_pos {f : Nat → ℚ} (hf : ∀ i, 0 < f i) : ∀ i, 0 < markovChain f i := by
  intro i
  induction i with
  | zero => exact one_pos
  | succ n ih => exact mul_pos ih (hf n)

theorem sum_map_mul (l : List ℚ) (c : ℚ) : (l.map (fun x => x * c)).sum = l.sum * c := by
  induction l with
  | nil => simp
  | cons a l ih => simp [ih, add_mul]

/-- Claim C3: for every non-negative source and every averaging-window radius,
`SmoothMarkov` keeps the length of the source and (after the final exact
renormalization) its element sum. -/
theorem C3_markov_sum_preserved (ratioFn : List ℚ → Nat → Nat → ℚ)
    (source : List ℚ) (averWindow : Nat)
    (hsrc : ∀ x ∈ source, 0 ≤ x)
    (hr : ∀ i, 0 < ratioFn source averWindow i) :
    (SmoothMarkov ratioFn source averWindow).length = source.length ∧
    (SmoothMarkov ratioFn source averWindow).sum = source.sum := by
  rw [SmoothMarkov]
  rcases List.eq_nil_or_concat source with hnil | ⟨l, a, hcons⟩
  · subst hnil
    simp
  · have hne : source.length ≠ 0 := by
      subst hcons
      simp
    have hpos : 0 < ((List.range source.length).map
        (markovChain (ratioFn source averWindow))).sum := by
      apply List.sum_pos
      · intro x hx
        rcases List.mem_map.mp hx with ⟨j, _, rfl⟩
        exact markovChain_pos hr j
      · simp [hne]
    rw [if_neg (ne_of_gt hpos)]
    refine ⟨by simp, ?_⟩
    rw [sum_map_mul, mul_comm, div_mul_cancel₀ _ (ne_of_gt hpos)]

theorem C3_markov_sum_preserved_witness :
    (SmoothMarkov (fun _ _ _ => 1) [1, 2, 3] 3).length = ([1, 2, 3] : List ℚ).length ∧
    (SmoothMarkov (fun _ _ _ => 1) [1, 2, 3] 3).sum = ([1, 2, 3] : List ℚ).sum :=
  C3_markov_sum_preserved (fun _ _ _ => 1) [1, 2, 3] 3 (by norm_num) (fun _ => one_pos)

theorem nonneg_getD_of_forall_mem {l : List ℚ} (h : ∀ x ∈ l, 0 ≤ x) (i : Nat) :
    0 ≤ l.getD i 0 := by
  by_cases hi : i < l.length
  · rw [List.getD_eq_getElem?_getD, List.getElem?_eq_getElem hi]
    exact h _ (List.getElem_mem hi)
  · rw [getD_of_length_le (Nat.le_of_not_lt hi)]

theorem convAt_nonneg {est ker : List ℚ} (hest : ∀ i, 0 ≤ est.getD i 0)
    (hker : ∀ i, 0 ≤ ker.getD i 0) (i : Nat) : 0 ≤ convAt est ker i := by
  apply List.sum_nonneg
  intro x hx
  rcases List.mem_map.mp hx with ⟨j, _, rfl⟩
  exact mul_nonneg (hker j) (hest (i + j))

theorem goldStep_nonneg {src ker est : List ℚ} (hsrc : ∀ i, 0 ≤ src.getD i 0)
    (hker : ∀ i, 0 ≤ ker.getD i 0) (hest : ∀ i, 0 ≤ est.getD i 0) :
    ∀ i, 0 ≤ (goldStep src ker est).getD i 0 := by
  intro i
  by_cases hi : i < est.length
  · rw [goldStep, getD_range_map _ hi]
    by_cases hd : convAt est ker i = 0
    · simpa [hd] using hest i
    · simp only [hd, if_false]
      exact mul_nonneg (hest i) (div_nonneg (hsrc i) (convAt_nonneg hest hker i))
  · rw [getD_of_length_le (by simpa [goldStep] using Nat.le_of_not_lt hi)]

theorem goldIter_nonneg {src ker : List ℚ} (hsrc : ∀ i, 0 ≤ src.getD i 0)
    (hker : ∀ i, 0 ≤ ker.getD i 0) :
    ∀ (n : Nat) (est : List ℚ), (∀ i, 0 ≤ est.getD i 0) →
      ∀ i, 0 ≤ (goldIter src ker n est).getD i 0 := by
  intro n
  induction n with
  | zero => intro est h i; exact h i
  | succ m ih => intro est h i; exact ih _ (goldStep_nonneg hsrc hker h) i

theorem map_nonneg_getD {f : ℚ → ℚ} (hf : ∀ x, 0 ≤ x → 0 ≤ f x)
    {l : List ℚ} (hl : ∀ i, 0 ≤ l.getD i 0) : ∀ i, 0 ≤ (l.map f).getD i 0 := by
  intro i
  by_cases hi : i < l.length
  · rw [List.getD_eq_getElem?_getD, List.getElem?_map, List.getElem?_eq_getElem hi]
    refine hf _ ?_
    simpa [List.getD_eq_getElem?_getD, List.getElem?_eq_getElem hi] using hl i
  · rw [getD_of_length_le (by simpa using Nat.le_of_not_lt hi)]

theorem goldRep_nonneg {boostFn : ℚ → ℚ} {src ker : List ℚ}
    (hb : ∀ x, 0 ≤ x → 0 ≤ boostFn x) (hsrc : ∀ i, 0 ≤ src.getD i 0)
    (hker : ∀ i, 0 ≤ ker.getD i 0) (iters : Nat) :
    ∀ (reps : Nat) (est : List ℚ), (∀ i, 0 ≤ est.getD i 0) →
      ∀ i, 0 ≤ (goldRep boostFn src ker iters reps est).getD i 0 := by
  intro reps
  induction reps with
  | zero => intro est h i; exact h i
  | succ n ih =>
      intro est h i
      rw [goldRep]
      by_cases hn : n = 0
      · simpa [hn] using goldIter_nonneg hsrc hker iters est h i
      · simp only [hn, if_false]
        exact ih _ (map_nonneg_getD hb (goldIter_nonneg hsrc hker iters est h)) i

/-- Claim C6: in the Gold-ratio update any channel whose denominator
`convolution(estimate, kernel)[i]` is zero (the only degenerate denominator in
this exact model, where NaN/Inf do not arise) is left unchanged, and for every
non-negative source and response — and any boosting transform preserving
non-negativity — the deconvolution output is non-negative at every channel. -/
theorem C6_deconvolution_safety :
    (∀ (src ker est : List ℚ) (i : Nat), convAt est ker i = 0 →
        (goldStep src ker est).getD i 0 = est.getD i 0) ∧
    (∀ (boostFn : ℚ → ℚ) (src ker : List ℚ) (iters reps : Nat),
        (∀ x, 0 ≤ x → 0 ≤ boostFn x) →
        (∀ x ∈ src, 0 ≤ x) → (∀ x ∈ ker, 0 ≤ x) →
        ∀ i, 0 ≤ (Deconvolution boostFn src ker iters reps).getD i 0) := by
  constructor
  · intro src ker est i h
    by_cases hi : i < est.length
    · rw [goldStep, getD_range_map _ hi]
      simp [h]
    · rw [getD_of_length_le (by simpa [goldStep] using Nat.le_of_not_lt hi),
         getD_of_length_le (Nat.le_of_not_lt hi)]
  · intro boostFn src ker iters reps hb hsrc hker i
    exact goldRep_nonneg hb (nonneg_getD_of_forall_mem hsrc)
      (nonneg_getD_of_forall_mem hker) iters reps src
      (nonneg_getD_of_forall_mem hsrc) i

theorem C6_deconvolution_safety_witness :
    (goldStep [3] [0] [5]).getD 0 0 = ([5] : List ℚ).getD 0 0 ∧
    0 ≤ (Deconvolution id [1, 2] [1] 2 2).getD 0 0 :=
  ⟨C6_deconvolution_safety.1 [3] [0] [5] 0 (by norm_num [convAt, List.range_succ]),
   C6_deconvolution_safety.2 id [1, 2] [1] 2 2 (fun _ h => h)
     (by norm_num) (by norm_num) 0⟩

/-- Claim C5: a search call with `sigma ≤ 0`, `threshold` outside `[0,100]`,
or an empty source reports a configuration error, leaves the instance's
result state unchanged, and returns zero peaks. -/
theorem C5_search_config_error (kernelOf : ℚ → List ℚ)
    (ratioFn : List ℚ → Nat → Nat → ℚ) (st : InstState) (source : List ℚ)
    (p : SearchParams)
    (h : p.sigma ≤ 0 ∨ p.threshold < 0 ∨ 100 < p.threshold ∨ source.length = 0) :
    searchHighResRun kernelOf ratioFn st source p = (st, 0) ∧
    (SearchHighRes kernelOf ratioFn st.fMaxPeaks source p).err =
      some SpecError.configurationError := by
  have hv : ¬ searchValid source p = true := by
    simp only [searchValid, Bool.and_eq_true, decide_eq_true_eq]
    rintro ⟨⟨⟨h1, h2⟩, h3⟩, h4⟩
    rcases h with h | h | h | h
    · linarith
    · linarith
    · linarith
    · omega
  have hres : SearchHighRes kernelOf ratioFn st.fMaxPeaks source p =
      { npeaks := 0, positions := [], dest := [], warning := false,
        err := some SpecError.configurationError } := by
    rw [SearchHighRes, if_neg hv]
  refine ⟨?_, by rw [hres]⟩
  rw [searchHighResRun, hres]
  simp

theorem C5_search_config_error_witness :
    searchHighResRun (fun _ => [1]) (fun _ _ _ => 1) ⟨5, 1, 0, []⟩ [1, 2, 3]
      ⟨-1, 50, false, 3, false, 3⟩ = (⟨5, 1, 0, []⟩, 0) ∧
    (SearchHighRes (fun _ => [1]) (fun _ _ _ => 1) (5 : Nat) [1, 2, 3]
      ⟨-1, 50, false, 3, false, 3⟩).err = some SpecError.configurationError :=
  C5_search_config_error (fun _ => [1]) (fun _ _ _ => 1) ⟨5, 1, 0, []⟩ [1, 2, 3]
    ⟨-1, 50, false, 3, false, 3⟩ (Or.inl (by norm_num))

/-- Claim C8: the search kernel is deterministic and free of hidden state:
two instances with the same configured maximum produce identical results on
the same input and configuration, and a repeated call on one instance
returns the same peak count as the first. -/
theorem C8_search_deterministic (kernelOf : ℚ → List ℚ)
    (ratioFn : List ℚ → Nat → Nat → ℚ) (source : List ℚ) (p : SearchParams)
    (s1 s2 : InstState) (h : s1.fMaxPeaks = s2.fMaxPeaks) :
    SearchHighRes kernelOf ratioFn s1.fMaxPeaks source p =
      SearchHighRes kernelOf ratioFn s2.fMaxPeaks source p ∧
    (searchHighResRun kernelOf ratioFn s1 source p).2 =
      (searchHighResRun kernelOf ratioFn s2 source p).2 ∧
    (searchHighResRun kernelOf ratioFn
        (searchHighResRun kernelOf ratioFn s1 source p).1 source p).2 =
      (searchHighResRun kernelOf ratioFn s1 source p).2 := by
  have hgen : ∀ t1 t2 : InstState, t1.fMaxPeaks = t2.fMaxPeaks →
      (searchHighResRun kernelOf ratioFn t1 source p).2 =
      (searchHighResRun kernelOf ratioFn t2 source p).2 := by
    intro t1 t2 ht
    rw [searchHighResRun, searchHighResRun, ht]
    by_cases hc : (SearchHighRes kernelOf ratioFn t2.fMaxPeaks source p).err = none <;>
      simp [hc]
  have hmax : (searchHighResRun kernelOf ratioFn s1 source p).1.fMaxPeaks =
      s1.fMaxPeaks := by
    rw [searchHighResRun]
    by_cases hc : (SearchHighRes kernelOf ratioFn s1.fMaxPeaks source p).err = none <;>
      simp [hc]
  exact ⟨by rw [h], hgen s1 s2 h, hgen _ s1 hmax⟩

theorem C8_search_deterministic_witness :
    SearchHighRes (fun _ => [1]) (fun _ _ _ => 1) (3 : Nat) [1, 2] ⟨1, 5, false, 1, false, 3⟩ =
      SearchHighRes (fun _ => [1]) (fun _ _ _ => 1) (3 : Nat) [1, 2] ⟨1, 5, false, 1, false, 3⟩ ∧
    (searchHighResRun (fun _ => [1]) (fun _ _ _ => 1) ⟨3, 1, 0, []⟩ [1, 2]
        ⟨1, 5, false, 1, false, 3⟩).2 =
      (searchHighResRun (fun _ => [1]) (fun _ _ _ => 1) ⟨3, 2, 7, [9]⟩ [1, 2]
        ⟨1, 5, false, 1, false, 3⟩).2 ∧
    (searchHighResRun (fun _ => [1]) (fun _ _ _ => 1)
        (searchHighResRun (fun _ => [1]) (fun _ _ _ => 1) ⟨3, 1, 0, []⟩ [1, 2]
          ⟨1, 5, false, 1, false, 3⟩).1 [1, 2] ⟨1, 5, false, 1, false, 3⟩).2 =
      (searchHighResRun (fun _ => [1]) (fun _ _ _ => 1) ⟨3, 1, 0, []⟩ [1, 2]
        ⟨1, 5, false, 1, false, 3⟩).2 :=
  C8_search_deterministic (fun _ => [1]) (fun _ _ _ => 1) [1, 2]
    ⟨1, 5, false, 1, false, 3⟩ ⟨3, 1, 0, []⟩ ⟨3, 2, 7, [9]⟩ rfl

theorem sepBy_symm {sigma : ℚ} {a b : Nat} (h : sepBy sigma a b) : sepBy sigma b a := by
  rwa [sepBy, abs_sub_comm]

theorem greedyGo_pairwise (sigma : ℚ) :
    ∀ (cs acc : List Nat), acc.Pairwise (sepBy sigma) →
      (greedyGo sigma acc cs).Pairwise (sepBy sigma) := by
  intro cs
  induction cs with
  | nil => intro acc h; exact h
  | cons i rest ih =>
      intro acc h
      rw [greedyGo]
      by_cases hf : farFrom sigma i acc = true
      · rw [if_pos hf]
        apply ih
        rw [List.pairwise_append]
        refine ⟨h, List.pairwise_singleton _ _, ?_⟩
        intro a ha b hb
        rw [List.mem_singleton] at hb
        have hle : sepBy sigma b a := by
          have h2 := List.all_eq_true.mp hf a ha
          rw [sepBy, hb]
          simpa using h2
        exact sepBy_symm hle
      · rw [if_neg hf]
        exact ih acc h

theorem greedyGo_append (sigma : ℚ) :
    ∀ (cs acc : List Nat), ∃ s, greedyGo sigma acc cs = acc ++ s ∧ s.Sublist cs := by
  intro cs
  induction cs with
  | nil => intro acc; exact ⟨[], by simp [greedyGo], List.nil_sublist _⟩
  | cons i rest ih =>
      intro acc
      rw [greedyGo]
      by_cases hf : farFrom sigma i acc = true
      · rw [if_pos hf]
        rcases ih (acc ++ [i]) with ⟨s, hs, hsub⟩
        refine ⟨i :: s, ?_, hsub.cons₂ i⟩
        rw [hs, List.append_assoc, List.singleton_append]
      · rw [if_neg hf]
        rcases ih acc with ⟨s, hs, hsub⟩
        exact ⟨s, hs, hsub.cons i⟩

theorem rankLE_total {arr : List ℚ} {a b : Nat} (h : ¬ rankLE arr a b = true) :
    rankLE arr b a = true := by
  rw [rankLE, decide_eq_true_eq] at *
  push_neg at h
  rcases lt_trichotomy (arr.getD a 0) (arr.getD b 0) with hlt | heq | hgt
  · exact Or.inl hlt
  · exact Or.inr ⟨heq.symm, (h.2 heq).le⟩
  · exact absurd hgt (not_lt.mpr h.1)

theorem rankLE_trans {arr : List ℚ} {a b c : Nat} (h1 : rankLE arr a b = true)
    (h2 : rankLE arr b c = true) : rankLE arr a c = true := by
  rw [rankLE, decide_eq_true_eq] at *
  rcases h1 with h1 | ⟨he1, hl1⟩
  · rcases h2 with h2 | ⟨he2, _⟩
    · exact Or.inl (h2.trans h1)
    · exact Or.inl (he2 ▸ h1)
  · rcases h2 with h2 | ⟨he2, hl2⟩
    · exact Or.inl (he1 ▸ h2)
    · exact Or.inr ⟨he1.trans he2, hl1.trans hl2⟩

theorem rankLE_height {arr : List ℚ} {a b : Nat} (h : rankLE arr a b = true) :
    arr.getD b 0 ≤ arr.getD a 0 := by
  rw [rankLE, decide_eq_true_eq] at h
  rcases h with h | ⟨he, _⟩
  · exact h.le
  · exact he.ge

theorem mem_insertRanked {arr : List ℚ} {i : Nat} :
    ∀ {l : List Nat} {x : Nat}, x ∈ insertRanked arr i l → x = i ∨ x ∈ l := by
  intro l
  induction l with
  | nil =>
      intro x hx
      rw [insertRanked, List.mem_singleton] at hx
      exact Or.inl hx
  | cons j rest ih =>
      intro x hx
      rw [insertRanked] at hx
      by_cases hr : rankLE arr i j = true
      · rw [if_pos hr] at hx
        rcases List.mem_cons.mp hx with rfl | hx
        · exact Or.inl rfl
        · exact Or.inr hx
      · rw [if_neg hr] at hx
        rcases List.mem_cons.mp hx with rfl | hx
        · exact Or.inr (List.mem_cons_self _ _)
        · rcases ih hx with rfl | hx
          · exact Or.inl rfl
          · exact Or.inr (List.mem_cons_of_mem _ hx)

theorem insertRanked_pairwise {arr : List ℚ} {i : Nat} :
    ∀ {l : List Nat}, l.Pairwise (fun a b => rankLE arr a b = true) →
      (insertRanked arr i l).Pairwise (fun a b => rankLE arr a b = true) := by
  intro l
  induction l with
  | nil => intro _; simp [insertRanked]
  | cons j rest ih =>
      intro hl
      rcases List.pairwise_cons.mp hl with ⟨hj, hrest⟩
      rw [insertRanked]
      by_cases hr : rankLE arr i j = true
      · rw [if_pos hr]
        refine List.pairwise_cons.mpr ⟨?_, hl⟩
        intro b hb
        rcases List.mem_cons.mp hb with rfl | hb
        · exact hr
        · exact rankLE_trans hr (hj b hb)
      · rw [if_neg hr]
        refine List.pairwise_cons.mpr ⟨?_, ih hrest⟩
        intro b hb
        rcases mem_insertRanked hb with rfl | hb
        · exact rankLE_total hr
        · exact hj b hb

theorem sortRanked_pairwise (arr : List ℚ) :
    ∀ l : List Nat, (sortRanked arr l).Pairwise (fun a b => rankLE arr a b = true) := by
  intro l
  induction l with
  | nil => simp [sortRanked]
  | cons i rest ih => exact insertRanked_pairwise ih

theorem selectPeaks_pairwise_sep (sigma threshold : ℚ) (arr : List ℚ) :
    (selectPeaks sigma threshold arr).Pairwise (sepBy sigma) :=
  greedyGo_pairwise sigma _ [] (List.Pairwise.nil)

theorem selectPeaks_pairwise_rank (sigma threshold : ℚ) (arr : List ℚ) :
    (selectPeaks sigma threshold arr).Pairwise (fun a b => rankLE arr a b = true) := by
  rcases greedyGo_append sigma (sortRanked arr (candidates arr threshold)) [] with ⟨s, hs, hsub⟩
  rw [selectPeaks, hs, List.nil_append]
  exact (sortRanked_pairwise arr _).sublist hsub

/-- Claim C7: the reported peak count never exceeds the configured maximum;
when more candidates qualify than the maximum, the call keeps exactly the
tallest ones (every retained peak is at least as tall as every discarded
qualifying candidate), flags the overflow as a warning, and reports no
error. -/
theorem C7_capacity (kernelOf : ℚ → List ℚ) (ratioFn : List ℚ → Nat → Nat → ℚ)
    (fMaxPeaks : Nat) (source : List ℚ) (p : SearchParams) :
    (SearchHighRes kernelOf ratioFn fMaxPeaks source p).npeaks ≤ fMaxPeaks ∧
    (SearchHighRes kernelOf ratioFn fMaxPeaks source p).positions.length ≤ fMaxPeaks ∧
    (searchValid source p = true →
      fMaxPeaks < (selectPeaks p.sigma p.threshold
        (sharpened kernelOf ratioFn source p)).length →
      (SearchHighRes kernelOf ratioFn fMaxPeaks source p).warning = true ∧
      (SearchHighRes kernelOf ratioFn fMaxPeaks source p).err = none ∧
      ∀ a ∈ (SearchHighRes kernelOf ratioFn fMaxPeaks source p).positions,
        ∀ b ∈ selectPeaks p.sigma p.threshold (sharpened kernelOf ratioFn source p),
          b ∉ (SearchHighRes kernelOf ratioFn fMaxPeaks source p).positions →
          (sharpened kernelOf ratioFn source p).getD b 0 ≤
            (sharpened kernelOf ratioFn source p).getD a 0) := by
  by_cases hv : searchValid source p = true
  · simp only [SearchHighRes, hv, if_true]
    refine ⟨by simp, by simp, ?_⟩
    intro _ hover
    refine ⟨by simpa using hover, by trivial, ?_⟩
    intro a ha b hb hbn
    set arr := sharpened kernelOf ratioFn source p with harr
    set acc := selectPeaks p.sigma p.threshold arr with hacc
    have hb' : b ∈ acc.take fMaxPeaks ++ acc.drop fMaxPeaks := by
      rw [List.take_append_drop]
      exact hb
    have hbd : b ∈ acc.drop fMaxPeaks := by
      rcases List.mem_append.mp hb' with h | h
      · exact absurd h hbn
      · exact h
    have hpw : (acc.take fMaxPeaks ++ acc.drop fMaxPeaks).Pairwise
        (fun x y => rankLE arr x y = true) := by
      rw [List.take_append_drop]
      exact selectPeaks_pairwise_rank p.sigma p.threshold arr
    exact rankLE_height ((List.pairwise_append.mp hpw).2.2 a ha b hbd)
  · rw [SearchHighRes, if_neg hv]
    exact ⟨Nat.zero_le _, Nat.zero_le _, fun h => absurd h hv⟩

set_option maxHeartbeats 2000000 in
theorem C7_capacity_witness :
    (SearchHighRes (fun _ => [1]) (fun _ _ _ => 1) 1 [0, 5, 0, 9, 0]
        ⟨1, 5, false, 0, false, 3⟩).npeaks ≤ 1 ∧
    (SearchHighRes (fun _ => [1]) (fun _ _ _ => 1) 1 [0, 5, 0, 9, 0]
        ⟨1, 5, false, 0, false, 3⟩).warning = true ∧
    (SearchHighRes (fun _ => [1]) (fun _ _ _ => 1) 1 [0, 5, 0, 9, 0]
        ⟨1, 5, false, 0, false, 3⟩).err = none := by
  have h := C7_capacity (fun _ => [1]) (fun _ _ _ => 1) 1 [0, 5, 0, 9, 0]
    ⟨1, 5, false, 0, false, 3⟩
  have hv : searchValid [0, 5, 0, 9, 0] ⟨1, 5, false, 0, false, 3⟩ = true := by decide
  have hsharp : sharpened (fun _ => [1]) (fun _ _ _ => 1) [0, 5, 0, 9, 0]
      ⟨1, 5, false, 0, false, 3⟩ = [0, 5, 0, 9, 0] := rfl
  have hover : 1 < (selectPeaks (1 : ℚ) 5 (sharpened (fun _ => [1]) (fun _ _ _ => 1)
      [0, 5, 0, 9, 0] ⟨1, 5, false, 0, false, 3⟩)).length := by
    rw [hsharp]
    norm_num [selectPeaks, candidates, maxAmp, List.range_succ, List.filter_cons,
      Bool.and_eq_true, decide_eq_true_eq, sortRanked, insertRanked, rankLE,
      greedyGo, farFrom]
  exact ⟨h.1, (h.2.2 hv hover).1, (h.2.2 hv hover).2.1⟩

/-- Claim C4: retained peaks are pairwise at least `sigma` apart, and when the
qualifying candidates are exactly two channels closer than `sigma`, the search
reports exactly one peak: the taller one, and on an exact height tie the one
at the lower channel index. -/
theorem C4_min_separation :
    (∀ (kernelOf : ℚ → List ℚ) (ratioFn : List ℚ → Nat → Nat → ℚ)
        (fMaxPeaks : Nat) (source : List ℚ) (p : SearchParams),
      (SearchHighRes kernelOf ratioFn fMaxPeaks source p).positions.Pairwise
        (sepBy p.sigma)) ∧
    (∀ (kernelOf : ℚ → List ℚ) (ratioFn : List ℚ → Nat → Nat → ℚ)
        (fMaxPeaks : Nat) (source : List ℚ) (p : SearchParams) (i j : Nat),
      searchValid source p = true → 1 ≤ fMaxPeaks →
      candidates (sharpened kernelOf ratioFn source p) p.threshold = [i, j] →
      i < j → |(i : ℚ) - (j : ℚ)| < p.sigma →
      (SearchHighRes kernelOf ratioFn fMaxPeaks source p).positions =
        [if (sharpened kernelOf ratioFn source p).getD i 0 <
            (sharpened kernelOf ratioFn source p).getD j 0 then j else i]) := by
  constructor
  · intro kernelOf ratioFn fMaxPeaks source p
    by_cases hv : searchValid source p = true
    · simp only [SearchHighRes, hv, if_true]
      exact (selectPeaks_pairwise_sep p.sigma p.threshold _).sublist
        (List.take_sublist _ _)
    · simp only [SearchHighRes, hv, if_false]
      exact List.Pairwise.nil
  · intro kernelOf ratioFn fMaxPeaks source p i j hv hmax hcand hij hclose
    simp only [SearchHighRes, hv, if_true]
    set arr := sharpened kernelOf ratioFn source p with harr
    have hsort : sortRanked arr (candidates arr p.threshold) =
        insertRanked arr i [j] := by
      rw [hcand]
      rfl
    have hfarJI : ¬ farFrom p.sigma j [i] = true := by
      simp only [farFrom, List.all_cons, List.all_nil, Bool.and_true,
        decide_eq_true_eq]
      rw [abs_sub_comm]
      exact not_le.mpr hclose
    have hfarIJ : ¬ farFrom p.sigma i [j] = true := by
      simp only [farFrom, List.all_cons, List.all_nil, Bool.and_true,
        decide_eq_true_eq]
      exact not_le.mpr hclose
    rw [selectPeaks, hsort, insertRanked]
    by_cases hr : rankLE arr i j = true
    · rw [if_pos hr]
      have hgr : greedyGo p.sigma [] [i, j] = [i] := by
        rw [greedyGo, if_pos (show farFrom p.sigma i [] = true from rfl),
          List.nil_append, greedyGo, if_neg hfarJI]
        rfl
      rw [hgr]
      have hnot : ¬ arr.getD i 0 < arr.getD j 0 := by
        rw [rankLE, decide_eq_true_eq] at hr
        rcases hr with h | ⟨he, _⟩
        · exact not_lt.mpr h.le
        · exact not_lt.mpr he.ge
      rw [if_neg hnot]
      exact List.take_of_length_le (by simpa using hmax)
    · rw [if_neg hr]
      rw [show (j :: insertRanked arr i [] : List Nat) = [j, i] from rfl]
      have hgr2 : greedyGo p.sigma [] [j, i] = [j] := by
        rw [greedyGo, if_pos (show farFrom p.sigma j [] = true from rfl),
          List.nil_append, greedyGo, if_neg hfarIJ]
        rfl
      rw [hgr2]
      have hlt : arr.getD i 0 < arr.getD j 0 := by
        rw [rankLE, decide_eq_true_eq] at hr
        push_neg at hr
        exact lt_of_le_of_ne hr.1 (fun he => absurd (hr.2 he) (Nat.lt_asymm hij))
      rw [if_pos hlt]
      exact List.take_of_length_le (by simpa using hmax)

set_option maxHeartbeats 4000000 in
theorem C4_min_separation_witness :
    (SearchHighRes (fun _ => [1]) (fun _ _ _ => 1) 5 scenarioC
        ⟨5, 10, false, 0, false, 3⟩).positions = [30] := by
  have hsharp : sharpened (fun _ => [1]) (fun _ _ _ => 1) scenarioC
      ⟨5, 10, false, 0, false, 3⟩ = scenarioC := rfl
  have hcand : candidates (sharpened (fun _ => [1]) (fun _ _ _ => 1) scenarioC
      ⟨5, 10, false, 0, false, 3⟩) (10 : ℚ) = [30, 33] := by
    rw [hsharp]
    norm_num [candidates, scenarioC, maxAmp, List.range_succ, List.filter_cons,
      Bool.and_eq_true, decide_eq_true_eq]
  have h := C4_min_separation.2 (fun _ => [1]) (fun _ _ _ => 1) 5 scenarioC
    ⟨5, 10, false, 0, false, 3⟩ 30 33 (by decide) (by norm_num) hcand
    (by norm_num) (by norm_num)
  rw [h, hsharp]
  norm_num [scenarioC]

/-- Claim C2 counterexample: with the shared statics initially `(3, 3)`, a
`SetAverageWindow 5` call made through instance A changes the configuration
that instance B's subsequent search behaviour uses — the field is
class-static, not per-instance. -/
theorem C2_counterexample :
    effectiveSearchConfigB
        (SetAverageWindow true ⟨⟨3, 3⟩, ⟨5, 1, 0, []⟩, ⟨5, 1, 0, []⟩⟩ 5) ≠
      effectiveSearchConfigB ⟨⟨3, 3⟩, ⟨5, 1, 0, []⟩, ⟨5, 1, 0, []⟩⟩ := by
  decide

/-- Claim C2 amended: the averaging window and the deconvolution iteration
count are class-static — setting either through any instance rewrites the
single shared field used by every instance's subsequent `Search` — while the
genuinely per-instance configuration (resolution) leaves the other instance
and the shared statics untouched. -/
theorem C2_static_config_shared (callerIsA : Bool) (w : SpectrumWorld)
    (v n : Int) (r : ℚ) :
    effectiveSearchConfigB (SetAverageWindow callerIsA w v) =
      (v, w.globals.fgIterations) ∧
    effectiveSearchConfigB (SetDeconIterations callerIsA w n) =
      (w.globals.fgAverageWindow, n) ∧
    (SetResolutionA w r).instB = w.instB ∧
    (SetResolutionA w r).globals = w.globals :=
  ⟨rfl, rfl, rfl, rfl⟩

/-- Claim C10: `Search`'s defaults are `sigma = 2`, option `"goff"`,
`threshold = 0.05`; the default threshold is a fraction in `(0,1)`, and under
`SearchHighRes`'s percent scale it means 5 — a different scale, since
`100 · 0.05 ≠ 0.05`. -/
theorem C10_search_defaults :
    searchDefaultSigma = 2 ∧ searchDefaultOption = "goff" ∧
    searchDefaultThreshold = 1 / 20 ∧
    0 < searchDefaultThreshold ∧ searchDefaultThreshold < 1 ∧
    searchThresholdToPercent searchDefaultThreshold = 5 ∧
    searchHighResThresholdOK (searchThresholdToPercent searchDefaultThreshold) ∧
    searchThresholdToPercent searchDefaultThreshold ≠ searchDefaultThreshold := by
  refine ⟨rfl, rfl, by norm_num [searchDefaultThreshold],
    by norm_num [searchDefaultThreshold], by norm_num [searchDefaultThreshold],
    by norm_num [searchThresholdToPercent, searchDefaultThreshold],
    by norm_num [searchHighResThresholdOK, searchThresholdToPercent, searchDefaultThreshold],
    by norm_num [searchThresholdToPercent, searchDefaultThreshold]⟩

end TSpectrum
